import Mathlib

set_option maxHeartbeats 1000000

/-
Verification development for ChatLab's AI agent core
(src/electron/main/ai/agent.ts together with the tool-registration module
bundled alongside it in the sources).

The development shallowly embeds:
  * the JavaScript `Date` arithmetic used by the query-tool executors
    (`new Date(year, monthIndex, day, h, m, s)` / `getTime`), with the local
    timezone offset as an explicit parameter `tz` (seconds east of UTC);
  * the tool executors `searchMessagesExecutor`, `getRecentMessagesExecutor`
    and `getTimeStatsExecutor`, as the calls they issue to the external data
    store (the store itself, `workerManager`, is an external collaborator and
    its answers are parameters);
  * the `Agent` orchestration loop (`execute`, `executeStream`,
    `handleToolCalls`), with the chat-model client and the per-request tool
    outcomes as oracle parameters (the LLM transport and the tool dispatcher's
    per-request internals live outside the embedded core).
-/

namespace ChatLab

/-! ### JavaScript date arithmetic -/

/-- Day number (days since 1970-01-01) of a civil date with 1-based month
`m ∈ [1,12]` and an arbitrary integer day offset `d` (day 0 is the day before
day 1 of the month, exactly as in ECMAScript `MakeDay`).  This is the standard
civil-calendar day count of the proleptic Gregorian calendar. -/
def daysFromCivil (y m d : Int) : Int :=
  let y2 : Int := if m ≤ 2 then y - 1 else y
  let era : Int := Int.fdiv y2 400
  let yoe : Int := y2 - era * 400
  let mp : Int := Int.emod (m + 9) 12
  let doy : Int := Int.fdiv (153 * mp + 2) 5 + d - 1
  let doe : Int := yoe * 365 + Int.fdiv yoe 4 - Int.fdiv yoe 100 + doy
  era * 146097 + doe - 719468

/-- ECMAScript `MakeDay`: `new Date(year, monthIndex, day, …)` first normalises
the 0-based month index into a (year, 1-based month) pair and then resolves the
day offset; in particular day 0 is the last day of the previous month. -/
def jsMakeDay (year monthIndex day : Int) : Int :=
  daysFromCivil (year + Int.fdiv monthIndex 12) (Int.emod monthIndex 12 + 1) day

/-- Milliseconds value of `new Date(year, monthIndex, day, h, mi, s).getTime()`
when the host's local timezone is `tz` seconds east of UTC: the constructor
arguments are interpreted as local wall-clock time. -/
def jsGetTimeMs (tz year monthIndex day h mi s : Int) : Int :=
  (jsMakeDay year monthIndex day * 86400 + h * 3600 + mi * 60 + s - tz) * 1000

/-- Epoch seconds of a civil wall-clock datetime (1-based month) in the local
timezone `tz` seconds east of UTC.  Used to state the specified time windows. -/
def civilEpochSec (tz y m d h mi s : Int) : Int :=
  daysFromCivil y m d * 86400 + h * 3600 + mi * 60 + s - tz

/-! ### Tool context and time-filter resolution -/

/-- Inclusive epoch-second window, as passed to the external data store. -/
structure TimeFilter where
  startTs : Int
  endTs : Int
  deriving DecidableEq, Repr

/-- Per-run read-only environment handed to every executor. -/
structure ToolContext where
  sessionId : String
  timeFilter : Option TimeFilter
  deriving DecidableEq, Repr

/-- JavaScript truthiness of an optional numeric argument: `undefined` and `0`
are falsy, every other integer is truthy. -/
def jsTruthyNum : Option Int → Bool
  | none => false
  | some v => v != 0

/-- JavaScript `x || d` for an optional numeric `x`. -/
def jsOrNum (x : Option Int) (d : Int) : Int :=
  if jsTruthyNum x then x.getD 0 else d

/-- Effective time filter of the query tools, transcribed from
`searchMessagesExecutor`; the same block appears verbatim in
`getRecentMessagesExecutor`.  When the `year` argument is truthy the executor
builds a window from local-time `Date` constructors and floors the millisecond
timestamps to seconds; otherwise it falls back to the context's ambient
filter. -/
def resolveYearMonthFilter (tz : Int) (contextTimeFilter : Option TimeFilter)
    (year month : Option Int) : Option TimeFilter :=
  if jsTruthyNum year then
    let y := year.getD 0
    if jsTruthyNum month then
      let m := month.getD 0
      some { startTs := Int.fdiv (jsGetTimeMs tz y (m - 1) 1 0 0 0) 1000
             endTs := Int.fdiv (jsGetTimeMs tz y m 0 23 59 59) 1000 }
    else
      some { startTs := Int.fdiv (jsGetTimeMs tz y 0 1 0 0 0) 1000
             endTs := Int.fdiv (jsGetTimeMs tz y 11 31 23 59 59) 1000 }
  else contextTimeFilter

/-! ### searchMessagesExecutor / getRecentMessagesExecutor -/

/-- Arguments of the `search_messages` tool. -/
structure SearchMessagesParams where
  keywords : List String
  limit : Option Int := none
  year : Option Int := none
  month : Option Int := none
  deriving DecidableEq, Repr

/-- The call `searchMessagesExecutor` issues to
`workerManager.searchMessages(sessionId, keywords, effectiveTimeFilter, limit, 0)`. -/
structure SearchMessagesStoreCall where
  sessionId : String
  keywords : List String
  timeFilter : Option TimeFilter
  limit : Int
  offset : Int
  deriving DecidableEq, Repr

/-- `searchMessagesExecutor` up to its data-store call: limit defaults to 200
and is capped at 5000; the effective time filter prefers the LLM-specified
year/month over the ambient context filter. -/
def searchMessagesStoreCall (tz : Int) (params : SearchMessagesParams)
    (ctx : ToolContext) : SearchMessagesStoreCall :=
  { sessionId := ctx.sessionId
    keywords := params.keywords
    timeFilter := resolveYearMonthFilter tz ctx.timeFilter params.year params.month
    limit := min (jsOrNum params.limit 200) 5000
    offset := 0 }

/-- Arguments of the `get_recent_messages` tool. -/
structure GetRecentMessagesParams where
  limit : Option Int := none
  year : Option Int := none
  month : Option Int := none
  deriving DecidableEq, Repr

/-- The call `getRecentMessagesExecutor` issues to
`workerManager.getRecentMessages(sessionId, effectiveTimeFilter, limit)`. -/
structure GetRecentMessagesStoreCall where
  sessionId : String
  timeFilter : Option TimeFilter
  limit : Int
  deriving DecidableEq, Repr

/-- `getRecentMessagesExecutor` up to its data-store call: limit defaults to
100; the time filter is resolved by the same year/month block as in
`searchMessagesExecutor`. -/
def getRecentMessagesStoreCall (tz : Int) (params : GetRecentMessagesParams)
    (ctx : ToolContext) : GetRecentMessagesStoreCall :=
  { sessionId := ctx.sessionId
    timeFilter := resolveYearMonthFilter tz ctx.timeFilter params.year params.month
    limit := jsOrNum params.limit 100 }

/-! ### getTimeStatsExecutor -/

/-- One row of `workerManager.getHourlyActivity`. -/
structure HourlyActivity where
  hour : Int
  messageCount : Int
  deriving DecidableEq, Repr

/-- One row of `workerManager.getWeekdayActivity`. -/
structure WeekdayActivity where
  weekday : Nat
  messageCount : Int
  deriving DecidableEq, Repr

/-- One row of `workerManager.getDailyActivity`. -/
structure DailyActivity where
  date : String
  messageCount : Int
  deriving DecidableEq, Repr

/-- JavaScript `Array.prototype.reduce` with no initial value: throws a
`TypeError` on an empty array, otherwise left-folds the callback over the tail
starting from the head. -/
def jsReduceNoInit {α : Type} (f : α → α → α) : List α → Except String α
  | [] => Except.error "Reduce of empty array with no initial value"
  | x :: xs => Except.ok (xs.foldl f x)

/-- Weekday names table of `getTimeStatsExecutor` (index 0 is the empty
padding entry; out-of-range indices render as "undefined" in the template). -/
def weekdayNames : List String :=
  ["", "周一", "周二", "周三", "周四", "周五", "周六", "周日"]

/-- Statistics type argument of `get_time_stats`. -/
inductive TimeStatsType where
  | hourly
  | weekday
  | daily
  deriving DecidableEq, Repr

/-- Result shapes of `getTimeStatsExecutor`. -/
inductive TimeStatsResult where
  | hourlyStats (distribution : List (String × Int)) (peakHour : String) (peakCount : Int)
  | weekdayStats (distribution : List (String × Int)) (peakDay : String) (peakCount : Int)
  | dailyStats (recentDays : Nat) (totalMessages : Int) (averagePerDay : Option Int)
      (trend : List (String × Int))
  deriving DecidableEq, Repr

/-- `getTimeStatsExecutor`, parameterised by the three activity tables the
external data store would return.  The `hourly` and `weekday` branches compute
the peak entry by `reduce` with no initial value, so an empty table makes the
executor throw (`Except.error`); the `daily` branch averages over the last 30
days (`Math.round(total / recent.length)` is `NaN` — modelled as `none` — on an
empty table, not a throw). -/
def getTimeStatsExecutor (ty : TimeStatsType)
    (hourlyData : List HourlyActivity) (weekdayData : List WeekdayActivity)
    (dailyData : List DailyActivity) : Except String TimeStatsResult :=
  match ty with
  | .hourly =>
    match jsReduceNoInit
        (fun max curr => if curr.messageCount > max.messageCount then curr else max)
        hourlyData with
    | .error e => .error e
    | .ok peak =>
      .ok (.hourlyStats
        (hourlyData.map fun h => (toString h.hour ++ ":00", h.messageCount))
        (toString peak.hour ++ ":00") peak.messageCount)
  | .weekday =>
    match jsReduceNoInit
        (fun max curr => if curr.messageCount > max.messageCount then curr else max)
        weekdayData with
    | .error e => .error e
    | .ok peak =>
      .ok (.weekdayStats
        (weekdayData.map fun w => (weekdayNames.getD w.weekday "undefined", w.messageCount))
        (weekdayNames.getD peak.weekday "undefined") peak.messageCount)
  | .daily =>
    let recent := dailyData.drop (dailyData.length - 30)
    let total := recent.foldl (fun sum d => sum + d.messageCount) 0
    let avg : Option Int :=
      if recent.length = 0 then none
      else some (Int.fdiv (2 * total + recent.length) (2 * recent.length))
    .ok (.dailyStats recent.length total avg (recent.map fun d => (d.date, d.messageCount)))

/-! ### Arithmetic helpers -/

/-- Flooring a whole number of thousmilitseconds back to its seconds value. -/
theorem fdiv_mul_thousand (a : Int) : Int.fdiv (a * 1000) 1000 = a :=
  Int.mul_fdiv_cancel a (by norm_num)

theorem jsMakeDay_2024_jan1 : jsMakeDay 2024 0 1 = daysFromCivil 2024 1 1 := by decide

theorem jsMakeDay_2024_dec31 : jsMakeDay 2024 11 31 = daysFromCivil 2024 12 31 := by decide

theorem jsMakeDay_2024_feb_end : jsMakeDay 2024 2 0 = daysFromCivil 2024 2 29 := by decide

theorem jsMakeDay_2024_feb1 : jsMakeDay 2024 1 1 = daysFromCivil 2024 2 1 := by decide

theorem jsMakeDay_2023_feb_end : jsMakeDay 2023 2 0 = daysFromCivil 2023 2 28 := by decide

theorem jsMakeDay_2023_feb1 : jsMakeDay 2023 1 1 = daysFromCivil 2023 2 1 := by decide

/-- C3 (claim as stated, checked before proving): with a concrete timezone
offset the year-2024 window is exactly the specified epoch seconds. -/
example :
    resolveYearMonthFilter 0 none (some 2024) none
      = some { startTs := 1704067200, endTs := 1735689599 } := by decide

example :
    resolveYearMonthFilter 0 none (some 2024) (some 2)
      = some { startTs := 1706745600, endTs := 1709251199 } := by decide

example :
    resolveYearMonthFilter 0 none (some 2023) (some 2)
      = some { startTs := 1675209600, endTs := 1677628799 } := by decide

/-- C3: for both query executors, `year = 2024` alone resolves to the inclusive
epoch-second window [2024-01-01T00:00:00, 2024-12-31T23:59:59] (local time);
`year = 2024, month = 2` ends at 2024-02-29T23:59:59 (leap year) and
`year = 2023, month = 2` ends at 2023-02-28T23:59:59, the last day being day 0
of the following month. -/
theorem time_range_resolution (tz : Int) (ctx : ToolContext) (kws : List String)
    (lim : Option Int) :
    (searchMessagesStoreCall tz { keywords := kws, limit := lim, year := some 2024 } ctx).timeFilter
        = some { startTs := civilEpochSec tz 2024 1 1 0 0 0
                 endTs := civilEpochSec tz 2024 12 31 23 59 59 } ∧
    (searchMessagesStoreCall tz
        { keywords := kws, limit := lim, year := some 2024, month := some 2 } ctx).timeFilter
        = some { startTs := civilEpochSec tz 2024 2 1 0 0 0
                 endTs := civilEpochSec tz 2024 2 29 23 59 59 } ∧
    (searchMessagesStoreCall tz
        { keywords := kws, limit := lim, year := some 2023, month := some 2 } ctx).timeFilter
        = some { startTs := civilEpochSec tz 2023 2 1 0 0 0
                 endTs := civilEpochSec tz 2023 2 28 23 59 59 } ∧
    (getRecentMessagesStoreCall tz { limit := lim, year := some 2024 } ctx).timeFilter
        = some { startTs := civilEpochSec tz 2024 1 1 0 0 0
                 endTs := civilEpochSec tz 2024 12 31 23 59 59 } ∧
    (getRecentMessagesStoreCall tz { limit := lim, year := some 2024, month := some 2 } ctx).timeFilter
        = some { startTs := civilEpochSec tz 2024 2 1 0 0 0
                 endTs := civilEpochSec tz 2024 2 29 23 59 59 } ∧
    (getRecentMessagesStoreCall tz { limit := lim, year := some 2023, month := some 2 } ctx).timeFilter
        = some { startTs := civilEpochSec tz 2023 2 1 0 0 0
                 endTs := civilEpochSec tz 2023 2 28 23 59 59 } := by
  refine ⟨?_, ?_, ?_, ?_, ?_, ?_⟩ <;>
    simp only [searchMessagesStoreCall, getRecentMessagesStoreCall, resolveYearMonthFilter,
      jsTruthyNum, jsGetTimeMs, civilEpochSec, fdiv_mul_thousand] <;>
    norm_num [jsMakeDay_2024_jan1, jsMakeDay_2024_dec31, jsMakeDay_2024_feb_end,
      jsMakeDay_2024_feb1, jsMakeDay_2023_feb_end, jsMakeDay_2023_feb1]

/-- C8: with a falsy `year` (absent or 0) the month argument is ignored and the
effective filter is the ambient context filter (or no filter); with a truthy
`year` and `month = 0` the full calendar-year window is used. -/
theorem falsy_year_month (tz : Int) (ctx : ToolContext) (m lim : Option Int)
    (kws : List String) :
    (searchMessagesStoreCall tz { keywords := kws, limit := lim, month := m } ctx).timeFilter
        = ctx.timeFilter ∧
    (searchMessagesStoreCall tz
        { keywords := kws, limit := lim, year := some 0, month := m } ctx).timeFilter
        = ctx.timeFilter ∧
    (getRecentMessagesStoreCall tz { limit := lim, month := m } ctx).timeFilter = ctx.timeFilter ∧
    (getRecentMessagesStoreCall tz { limit := lim, year := some 0, month := m } ctx).timeFilter
        = ctx.timeFilter ∧
    (∀ y : Int, y ≠ 0 →
      resolveYearMonthFilter tz ctx.timeFilter (some y) (some 0)
        = resolveYearMonthFilter tz ctx.timeFilter (some y) none) := by
  refine ⟨?_, ?_, ?_, ?_, ?_⟩
  · simp [searchMessagesStoreCall, resolveYearMonthFilter, jsTruthyNum]
  · simp [searchMessagesStoreCall, resolveYearMonthFilter, jsTruthyNum]
  · simp [getRecentMessagesStoreCall, resolveYearMonthFilter, jsTruthyNum]
  · simp [getRecentMessagesStoreCall, resolveYearMonthFilter, jsTruthyNum]
  · intro y hy
    simp [resolveYearMonthFilter, jsTruthyNum, hy]

/-- Witness for `falsy_year_month` at a concrete input. -/
theorem falsy_year_month_witness :
    (searchMessagesStoreCall 28800 { keywords := ["a"], limit := some 7, month := some 3 }
        { sessionId := "s", timeFilter := some { startTs := 1, endTs := 2 } }).timeFilter
      = some { startTs := 1, endTs := 2 } ∧
    resolveYearMonthFilter 28800 (some { startTs := 1, endTs := 2 }) (some 2024) (some 0)
      = resolveYearMonthFilter 28800 (some { startTs := 1, endTs := 2 }) (some 2024) none :=
  ⟨(falsy_year_month 28800
      { sessionId := "s", timeFilter := some { startTs := 1, endTs := 2 } }
      (some 3) (some 7) ["a"]).1,
   (falsy_year_month 28800
      { sessionId := "s", timeFilter := some { startTs := 1, endTs := 2 } }
      (some 3) (some 7) ["a"]).2.2.2.2 2024 (by decide)⟩

/-- C9: with type `hourly` or `weekday` and an empty activity table from the
data store, `getTimeStatsExecutor` throws (the peak entry is computed by
`reduce` with no initial value), rather than returning a result. -/
theorem time_stats_empty_activity (w : List WeekdayActivity) (h : List HourlyActivity)
    (d : List DailyActivity) :
    getTimeStatsExecutor .hourly [] w d
        = Except.error "Reduce of empty array with no initial value" ∧
    getTimeStatsExecutor .weekday h [] d
        = Except.error "Reduce of empty array with no initial value" := by
  exact ⟨rfl, rfl⟩

/-- C10: the limit forwarded to the data store by `searchMessagesExecutor` is
`min limit 5000` for a positive limit and 200 when the limit is absent or 0. -/
theorem search_limit_policy (tz : Int) (ctx : ToolContext) (kws : List String)
    (y m : Option Int) :
    (∀ l : Int, 0 < l →
      (searchMessagesStoreCall tz { keywords := kws, limit := some l, year := y, month := m }
          ctx).limit = min l 5000) ∧
    (searchMessagesStoreCall tz { keywords := kws, year := y, month := m } ctx).limit = 200 ∧
    (searchMessagesStoreCall tz { keywords := kws, limit := some 0, year := y, month := m }
        ctx).limit = 200 := by
  refine ⟨?_, ?_, ?_⟩
  · intro l hl
    have : l ≠ 0 := by omega
    simp [searchMessagesStoreCall, jsOrNum, jsTruthyNum, this]
  · simp [searchMessagesStoreCall, jsOrNum, jsTruthyNum]
  · simp [searchMessagesStoreCall, jsOrNum, jsTruthyNum]

/-- Witness for `search_limit_policy` at a concrete input. -/
theorem search_limit_policy_witness :
    (searchMessagesStoreCall 0 { keywords := ["k"], limit := some 9000 }
        { sessionId := "s", timeFilter := none }).limit = min 9000 5000 :=
  (search_limit_policy 0 { sessionId := "s", timeFilter := none } ["k"] none none).1
    9000 (by decide)

/-! ### Conversation data model (from llm/types, as used by agent.ts) -/

/-- Message roles of the conversation history. -/
inductive Role where
  | system
  | user
  | assistant
  | tool
  deriving DecidableEq, Repr

/-- A tool-call request emitted by the model.  In the source this is
`{ id, type, function: { name, arguments } }`; the constant `type` tag is
dropped and the `function` record is flattened. -/
structure ToolCall where
  id : String
  name : String
  arguments : String
  deriving DecidableEq, Repr

/-- One turn of the conversation history. -/
structure ChatMessage where
  role : Role
  content : String
  tool_calls : Option (List ToolCall) := none
  tool_call_id : Option String := none
  deriving DecidableEq, Repr

/-- Non-streaming chat-model response. -/
structure ChatResponse where
  content : String
  finishReason : Option String := none
  tool_calls : Option (List ToolCall) := none
  deriving DecidableEq, Repr

/-- One chunk of a streamed chat-model response. -/
structure ChatStreamChunk where
  content : String := ""
  tool_calls : Option (List ToolCall) := none
  isFinished : Bool := false
  finishReason : Option String := none
  deriving DecidableEq, Repr

/-- Outcome of one dispatched tool call: a success payload (the structured
value, represented here by its serialised form) or a failure reason. -/
inductive ToolExecutionResult where
  | success (payload : String)
  | failure (error : String)
  deriving DecidableEq, Repr

/-- Modelled from the spec: `executeToolCalls` of the Tool Dispatcher
(src/electron/main/ai/tools/index.ts, not included in the sources).  Per §4.2
it takes the full ordered request list and produces a same-length, same-order
list of tagged outcomes; argument-parse failures, unknown tools and executor
exceptions are all materialised as failure results and never escape the
dispatcher.  The per-request outcome is abstracted by the oracle `exec`. -/
def executeToolCalls (exec : ToolCall → ToolExecutionResult)
    (requests : List ToolCall) : List ToolExecutionResult :=
  requests.map exec

/-! ### Agent streaming events and run state -/

/-- Parsed tool arguments carried by a `tool_start` event: the parse oracle's
token for `JSON.parse(tc.function.arguments)` plus the ambient time filter the
agent merges in (as the added `_timeFilter` field) for the two search tools. -/
structure ToolStartParams where
  args : String
  timeFilterMerged : Option TimeFilter
  deriving DecidableEq, Repr

/-- Stream chunks delivered to the caller's `onChunk` (AgentStreamChunk with
`type` made into constructors; the `error` variant is emitted only by callers
of the agent, not inside `execute`/`executeStream`). -/
inductive AgentEvent where
  | content (text : String)
  | toolStart (toolName : String) (toolParams : Option ToolStartParams)
  | toolResult (toolName : String) (value : String)
  | done
  deriving DecidableEq, Repr

/-- Value carried by a `tool_result` event:
`result.success ? result.result : result.error`. -/
def toolResultValue : ToolExecutionResult → String
  | .success p => p
  | .failure e => e

/-- Content of the tool-role message appended for one result:
`result.success ? JSON.stringify(result.result) : "错误: " + result.error`
(the success payload is already its serialised form here). -/
def toolMessageContent : ToolExecutionResult → String
  | .success p => p
  | .failure e => "错误: " ++ e

/-- The `toolParams` payload computed for a `tool_start` event:
`JSON.parse` of the call's argument text (or of the empty-object literal when
that text is empty, per the or-default in the source), with the ambient
context time filter merged in for `search_messages` and
`get_recent_messages`; a parse failure yields `undefined`.  `parse` is the
parse oracle (`none` = throw). -/
def startParams (parse : String → Option String) (ctx : ToolContext)
    (tc : ToolCall) : Option ToolStartParams :=
  match parse (if tc.arguments = "" then "\x7b\x7d" else tc.arguments) with
  | none => none
  | some a =>
    some { args := a
           timeFilterMerged :=
             if ctx.timeFilter.isSome
                 && (tc.name == "search_messages" || tc.name == "get_recent_messages")
             then ctx.timeFilter else none }

/-- The `tool_start` event emitted for one requested call. -/
def toolStartEvent (parse : String → Option String) (ctx : ToolContext)
    (tc : ToolCall) : AgentEvent :=
  .toolStart tc.name (startParams parse ctx tc)

/-- The `tool_result` event emitted for one completed call. -/
def toolResultEvent (p : ToolCall × ToolExecutionResult) : AgentEvent :=
  .toolResult p.1.name (toolResultValue p.2)

/-- The tool-role message appended for one completed call, keyed by the
originating call id. -/
def toolResponseMessage (p : ToolCall × ToolExecutionResult) : ChatMessage :=
  { role := .tool, content := toolMessageContent p.2, tool_call_id := some p.1.id }

/-- The assistant message appended when the model requests tools: empty text
content, carrying the requests. -/
def assistantToolMessage (tcs : List ToolCall) : ChatMessage :=
  { role := .assistant, content := "", tool_calls := some tcs }

/-- Final summary returned by a run. -/
structure AgentResult where
  content : String
  toolsUsed : List String
  toolRounds : Nat
  deriving DecidableEq, Repr

/-- Mutable per-run state of the `Agent` instance (`messages`, `toolsUsed`,
`toolRounds`), extended with ghost trace fields that record what the run
emitted and did, for stating the observable properties:
`events` (chunks delivered to `onChunk`), `chatCalls` (the tools-advertised
flag of each model call, in order), `responses` (text of each model response),
`dispatchCount` (number of dispatcher invocations) and `snapshots` (the message
history after seeding and after each mutation batch). -/
structure AgentState where
  messages : List ChatMessage
  toolsUsed : List String
  toolRounds : Nat
  events : List AgentEvent
  chatCalls : List Bool
  responses : List String
  dispatchCount : Nat
  snapshots : List (List ChatMessage)
  deriving DecidableEq, Repr

/-- The forced-finish instruction pushed after the round budget is exhausted. -/
def forcedUserMessage : ChatMessage :=
  { role := .user, content := "请根据已获取的信息给出回答，不要再调用工具。" }

/-- The result loop of `handleToolCalls`: for each `(request, result)` pair in
order, record the tool name, emit a `tool_result` event when streaming, and
append the tool-role message keyed by the request id. -/
def processResults (withEvents : Bool) :
    AgentState → List (ToolCall × ToolExecutionResult) → AgentState
  | st, [] => st
  | st, p :: rest =>
    processResults withEvents
      { st with
        toolsUsed := st.toolsUsed ++ [p.1.name]
        events := if withEvents then st.events ++ [toolResultEvent p] else st.events
        messages := st.messages ++ [toolResponseMessage p] }
      rest

/-- `Agent.handleToolCalls`: append the assistant message carrying the
requests, dispatch them all, then fold every result back into the history
(and, when streaming, into the event sequence). -/
def handleToolCalls (exec : ToolCall → ToolExecutionResult) (withEvents : Bool)
    (st : AgentState) (toolCalls : List ToolCall) : AgentState :=
  let st1 := { st with messages := st.messages ++ [assistantToolMessage toolCalls] }
  let results := executeToolCalls exec toolCalls
  let st2 := processResults withEvents st1 (toolCalls.zip results)
  { st2 with
    dispatchCount := st2.dispatchCount + 1
    snapshots := st2.snapshots ++ [st2.messages] }

/-- Fresh run state seeded with the system prompt and the user question (the
source builds the system prompt from the current date; it is a parameter
here). -/
def initState (systemPrompt userMessage : String) : AgentState :=
  { messages := [{ role := .system, content := systemPrompt },
                 { role := .user, content := userMessage }]
    toolsUsed := []
    toolRounds := 0
    events := []
    chatCalls := []
    responses := []
    dispatchCount := 0
    snapshots := [[{ role := .system, content := systemPrompt },
                   { role := .user, content := userMessage }]] }

/-! ### Agent.execute (non-streaming) -/

/-- The `while (this.toolRounds < this.config.maxToolRounds)` loop of
`Agent.execute`, as a recursion on the remaining budget
`maxToolRounds - toolRounds` (the loop increments `toolRounds` on every
iteration, so the two are in lockstep).  The chat-model client is the oracle
`client history toolsAdvertised`; its response ends the run unless
`finishReason` is exactly tool_calls and `tool_calls` is present (note an
empty `tool_calls` array is present, JavaScript truthiness).  On budget
exhaustion the forced-finish user message is pushed and one final call is made
without advertising tools. -/
def executeAux (client : List ChatMessage → Bool → ChatResponse)
    (exec : ToolCall → ToolExecutionResult) :
    Nat → AgentState → AgentState × AgentResult
  | 0, st =>
    let st1 := { st with messages := st.messages ++ [forcedUserMessage] }
    let st2 := { st1 with snapshots := st1.snapshots ++ [st1.messages] }
    let resp := client st2.messages false
    let st3 := { st2 with
      chatCalls := st2.chatCalls ++ [false]
      responses := st2.responses ++ [resp.content] }
    (st3, { content := resp.content, toolsUsed := st3.toolsUsed, toolRounds := st3.toolRounds })
  | fuel + 1, st =>
    let resp := client st.messages true
    let st1 := { st with
      chatCalls := st.chatCalls ++ [true]
      responses := st.responses ++ [resp.content] }
    if resp.finishReason ≠ some "tool_calls" ∨ resp.tool_calls = none then
      (st1, { content := resp.content, toolsUsed := st1.toolsUsed, toolRounds := st1.toolRounds })
    else
      let st2 := handleToolCalls exec false st1 (resp.tool_calls.getD [])
      executeAux client exec fuel { st2 with toolRounds := st2.toolRounds + 1 }

/-- `Agent.execute userMessage` with configuration `maxToolRounds` (default 5
in the source), returning the final run state (with its ghost trace) and the
`AgentResult`. -/
def execute (client : List ChatMessage → Bool → ChatResponse)
    (exec : ToolCall → ToolExecutionResult) (maxToolRounds : Nat)
    (systemPrompt userMessage : String) : AgentState × AgentResult :=
  executeAux client exec maxToolRounds (initState systemPrompt userMessage)

/-! ### Agent.executeStream -/

/-- What one in-round pass over the model's chunk stream produces: either the
early return taken on a terminal chunk whose decision is not an actionable
tool call, or falling out of the stream with the retained (last-seen)
tool-call decision. -/
inductive RoundOutcome where
  | returned (finalContent : String) (events : List AgentEvent)
  | fellThrough (retained : Option (List ToolCall)) (events : List AgentEvent)
  deriving DecidableEq, Repr

/-- The `for await (const chunk of chatStream(...))` body of one round:
non-empty text fragments are forwarded immediately and accumulated; a chunk's
`tool_calls` overwrites the retained decision (last-seen wins); on a chunk
with `isFinished`, if `finishReason` is not tool_calls or no decision was
retained (an empty retained array counts as retained — JavaScript truthiness)
the round returns the accumulated text and emits `done`. -/
def runRound : List ChatStreamChunk → String → Option (List ToolCall) →
    List AgentEvent → RoundOutcome
  | [], _, retained, evs => .fellThrough retained evs
  | c :: rest, acc, retained, evs =>
    let acc1 := if c.content ≠ "" then acc ++ c.content else acc
    let evs1 := if c.content ≠ "" then evs ++ [.content c.content] else evs
    let retained1 := match c.tool_calls with
      | some l => some l
      | none => retained
    if c.isFinished && (c.finishReason != some "tool_calls" || retained1.isNone) then
      .returned acc1 (evs1 ++ [.done])
    else
      runRound rest acc1 retained1 evs1

/-- Outcome of one iteration of the streaming while-loop. -/
inductive StreamStepOutcome where
  | finished (st : AgentState) (result : AgentResult)
  | next (st : AgentState)
  deriving DecidableEq, Repr

/-- One iteration of the `executeStream` while-loop: stream a model call over
the current history (tools advertised); on the in-stream return, the run is
finished with the accumulated text.  Otherwise, only a retained decision with
`length > 0` triggers the dispatch block: one `tool_start` event per request,
then `handleToolCalls` (which emits the `tool_result` events), then the round
counter increments.  A retained empty decision, or none at all, falls through
with no state change — the loop repeats. -/
def streamStep (sclient : List ChatMessage → Bool → List ChatStreamChunk)
    (exec : ToolCall → ToolExecutionResult) (parse : String → Option String)
    (ctx : ToolContext) (st : AgentState) : StreamStepOutcome :=
  let chunks := sclient st.messages true
  let st0 := { st with chatCalls := st.chatCalls ++ [true] }
  match runRound chunks "" none [] with
  | .returned fc evs =>
    .finished
      { st0 with events := st0.events ++ evs, responses := st0.responses ++ [fc] }
      { content := fc, toolsUsed := st0.toolsUsed, toolRounds := st0.toolRounds }
  | .fellThrough retained evs =>
    let st1 := { st0 with events := st0.events ++ evs }
    match retained with
    | some tcs =>
      if 0 < tcs.length then
        let st2 := { st1 with
          events := st1.events ++ tcs.map (toolStartEvent parse ctx) }
        let st3 := handleToolCalls exec true st2 tcs
        .next { st3 with toolRounds := st3.toolRounds + 1 }
      else .next st1
    | none => .next st1

/-- The text accumulation and event emission of the forced-finish stream
(tools not advertised): text fragments are forwarded and appended to
`finalContent`; every chunk with `isFinished` emits a `done` event. -/
def finalStreamFold : List ChatStreamChunk → String → List AgentEvent →
    String × List AgentEvent
  | [], acc, evs => (acc, evs)
  | c :: rest, acc, evs =>
    let acc1 := if c.content ≠ "" then acc ++ c.content else acc
    let evs1 := if c.content ≠ "" then evs ++ [.content c.content] else evs
    let evs2 := if c.isFinished then evs1 ++ [.done] else evs1
    finalStreamFold rest acc1 evs2

/-- The forced-finish tail of `executeStream`: push the forced user message,
stream one final model call without advertising tools, and return its
accumulated text. -/
def forcedFinishStream (sclient : List ChatMessage → Bool → List ChatStreamChunk)
    (st : AgentState) : Option AgentResult × AgentState :=
  let st1 := { st with messages := st.messages ++ [forcedUserMessage] }
  let st2 := { st1 with snapshots := st1.snapshots ++ [st1.messages] }
  let chunks := sclient st2.messages false
  let st3 := { st2 with chatCalls := st2.chatCalls ++ [false] }
  let p := finalStreamFold chunks "" []
  let st4 := { st3 with
    events := st3.events ++ p.2
    responses := st3.responses ++ [p.1] }
  (some { content := p.1, toolsUsed := st4.toolsUsed, toolRounds := st4.toolRounds }, st4)

/-- The `executeStream` while-loop.  The source bounds it only by
`toolRounds < maxToolRounds`, and an iteration need not increment
`toolRounds`, so the loop is not structurally bounded; `fuel` is the number of
iterations unfolded here, and a `none` result marks a run that is still
looping after `fuel` iterations (= `fuel` model calls) — i.e. divergence of
the source loop when `none` holds for every fuel. -/
def streamLoopAux (sclient : List ChatMessage → Bool → List ChatStreamChunk)
    (exec : ToolCall → ToolExecutionResult) (parse : String → Option String)
    (ctx : ToolContext) (maxToolRounds : Nat) :
    Nat → AgentState → Option AgentResult × AgentState
  | 0, st =>
    if st.toolRounds < maxToolRounds then (none, st)
    else forcedFinishStream sclient st
  | fuel + 1, st =>
    if st.toolRounds < maxToolRounds then
      match streamStep sclient exec parse ctx st with
      | .finished st1 r => (some r, st1)
      | .next st1 => streamLoopAux sclient exec parse ctx maxToolRounds fuel st1
    else forcedFinishStream sclient st

/-- `Agent.executeStream userMessage onChunk` with configuration
`maxToolRounds`, unfolding at most `fuel` while-loop iterations. -/
def executeStream (sclient : List ChatMessage → Bool → List ChatStreamChunk)
    (exec : ToolCall → ToolExecutionResult) (parse : String → Option String)
    (ctx : ToolContext) (maxToolRounds : Nat) (systemPrompt userMessage : String)
    (fuel : Nat) : Option AgentResult × AgentState :=
  streamLoopAux sclient exec parse ctx maxToolRounds fuel (initState systemPrompt userMessage)

/-! ### Closed forms of the dispatch phase -/

theorem processResults_spec (w : Bool) (l : List (ToolCall × ToolExecutionResult))
    (st : AgentState) :
    processResults w st l =
      { st with
        toolsUsed := st.toolsUsed ++ l.map fun p => p.1.name
        events := st.events ++ if w then l.map toolResultEvent else []
        messages := st.messages ++ l.map toolResponseMessage } := by
  induction l generalizing st with
  | nil => simp [processResults]
  | cons hd tl ih =>
    rw [processResults, ih]
    cases w <;> simp

theorem handleToolCalls_spec (exec : ToolCall → ToolExecutionResult) (w : Bool)
    (st : AgentState) (tcs : List ToolCall) :
    handleToolCalls exec w st tcs =
      { st with
        messages := st.messages ++ assistantToolMessage tcs ::
          (tcs.zip (executeToolCalls exec tcs)).map toolResponseMessage
        toolsUsed := st.toolsUsed ++
          (tcs.zip (executeToolCalls exec tcs)).map fun p => p.1.name
        events := st.events ++
          if w then (tcs.zip (executeToolCalls exec tcs)).map toolResultEvent else []
        dispatchCount := st.dispatchCount + 1
        snapshots := st.snapshots ++ [st.messages ++ assistantToolMessage tcs ::
          (tcs.zip (executeToolCalls exec tcs)).map toolResponseMessage] } := by
  rw [handleToolCalls, processResults_spec]
  cases w <;> simp

/-- Pairing the requests with the dispatcher's results is pairing each request
with its own outcome. -/
theorem zip_executeToolCalls (exec : ToolCall → ToolExecutionResult)
    (tcs : List ToolCall) :
    tcs.zip (executeToolCalls exec tcs) = tcs.map fun tc => (tc, exec tc) := by
  induction tcs with
  | nil => rfl
  | cons hd tl ih => simp [executeToolCalls] at ih ⊢; exact ih

/-! ### Sanity checks of the loop semantics on concrete stubs -/

def sanityTextChunk : ChatStreamChunk :=
  { content := "hi", isFinished := true, finishReason := some "stop" }

def sanityToolResponse : ChatResponse :=
  { content := ""
    finishReason := some "tool_calls"
    tool_calls := some [{ id := "1", name := "get_member_stats", arguments := "" }] }

def sanityTextResponse : ChatResponse :=
  { content := "done", finishReason := some "stop" }

example :
    (execute (fun _ _ => sanityTextResponse)
      (fun _ => .success "ok") 5 "sys" "q").2
    = { content := "done", toolsUsed := [], toolRounds := 0 } := by decide

example :
    (executeStream (fun _ _ => [sanityTextChunk])
      (fun _ => .success "ok") (fun s => some s)
      { sessionId := "s", timeFilter := none } 5 "sys" "q" 3).1
    = some { content := "hi", toolsUsed := [], toolRounds := 0 } := by decide

example :
    (execute (fun _ adv => if adv then sanityToolResponse else sanityTextResponse)
      (fun _ => .success "ok") 2 "sys" "q").2
    = { content := "done",
        toolsUsed := ["get_member_stats", "get_member_stats"], toolRounds := 2 } := by decide

/-! ### C1: the round counter never exceeds the configured maximum -/

theorem executeAux_toolRounds_le (client : List ChatMessage → Bool → ChatResponse)
    (exec : ToolCall → ToolExecutionResult) :
    ∀ (fuel : Nat) (st : AgentState),
      (executeAux client exec fuel st).2.toolRounds ≤ st.toolRounds + fuel := by
  intro fuel
  induction fuel with
  | zero => intro st; simp [executeAux]
  | succ fuel ih =>
    intro st
    rw [executeAux]
    split
    · simp
    · refine le_trans (ih _) ?_
      simp [handleToolCalls_spec]
      omega

theorem forcedFinishStream_toolRounds
    (sclient : List ChatMessage → Bool → List ChatStreamChunk)
    (st st2 : AgentState) (r : AgentResult)
    (h : forcedFinishStream sclient st = (some r, st2)) :
    r.toolRounds = st.toolRounds := by
  unfold forcedFinishStream at h
  simp only [Prod.mk.injEq, Option.some.injEq] at h
  obtain ⟨h1, _⟩ := h
  subst h1
  rfl

theorem streamStep_finished_toolRounds
    (sclient : List ChatMessage → Bool → List ChatStreamChunk)
    (exec : ToolCall → ToolExecutionResult) (parse : String → Option String)
    (ctx : ToolContext) (st st1 : AgentState) (r : AgentResult)
    (h : streamStep sclient exec parse ctx st = .finished st1 r) :
    r.toolRounds = st.toolRounds := by
  cases hr : runRound (sclient st.messages true) "" none [] with
  | returned fc evs =>
    simp only [streamStep, hr, StreamStepOutcome.finished.injEq] at h
    obtain ⟨_, h2⟩ := h
    subst h2
    rfl
  | fellThrough retained evs =>
    cases retained with
    | some tcs =>
      by_cases hl : 0 < tcs.length <;> simp [streamStep, hr, hl] at h
    | none => simp [streamStep, hr] at h

theorem streamStep_next_toolRounds
    (sclient : List ChatMessage → Bool → List ChatStreamChunk)
    (exec : ToolCall → ToolExecutionResult) (parse : String → Option String)
    (ctx : ToolContext) (st st1 : AgentState)
    (h : streamStep sclient exec parse ctx st = .next st1) :
    st1.toolRounds ≤ st.toolRounds + 1 := by
  cases hr : runRound (sclient st.messages true) "" none [] with
  | returned fc evs =>
    simp [streamStep, hr] at h
  | fellThrough retained evs =>
    cases retained with
    | some tcs =>
      by_cases hl : 0 < tcs.length
      · simp only [streamStep, hr, hl, if_true, StreamStepOutcome.next.injEq] at h
        subst h
        simp [handleToolCalls_spec]
      · simp only [streamStep, hr, hl, if_false, StreamStepOutcome.next.injEq] at h
        subst h
        simp
    | none =>
      simp only [streamStep, hr, StreamStepOutcome.next.injEq] at h
      subst h
      simp

theorem streamLoopAux_toolRounds_le
    (sclient : List ChatMessage → Bool → List ChatStreamChunk)
    (exec : ToolCall → ToolExecutionResult) (parse : String → Option String)
    (ctx : ToolContext) (maxToolRounds : Nat) :
    ∀ (fuel : Nat) (st st2 : AgentState) (r : AgentResult),
      st.toolRounds ≤ maxToolRounds →
      streamLoopAux sclient exec parse ctx maxToolRounds fuel st = (some r, st2) →
      r.toolRounds ≤ maxToolRounds := by
  intro fuel
  induction fuel with
  | zero =>
    intro st st2 r hle h
    rw [streamLoopAux] at h
    split at h
    · simp at h
    · rw [forcedFinishStream_toolRounds sclient st st2 r h]
      exact hle
  | succ fuel ih =>
    intro st st2 r hle h
    rw [streamLoopAux] at h
    split at h
    · rename_i hlt
      cases hs : streamStep sclient exec parse ctx st <;> rw [hs] at h
      · simp only [Prod.mk.injEq, Option.some.injEq] at h
        obtain ⟨h1, _⟩ := h
        subst h1
        rw [streamStep_finished_toolRounds sclient exec parse ctx st _ _ hs]
        exact hle
      · rename_i st1
        have hb := streamStep_next_toolRounds sclient exec parse ctx st st1 hs
        exact ih st1 st2 r (by omega) h
    · rw [forcedFinishStream_toolRounds sclient st st2 r h]
      exact hle

/-- C1: for every run of `Agent.execute` or `Agent.executeStream` with
configured maximum `maxToolRounds`, the `toolRounds` field of the returned
`AgentResult` is at most `maxToolRounds`. -/
theorem toolRounds_never_exceeds_max (client : List ChatMessage → Bool → ChatResponse)
    (sclient : List ChatMessage → Bool → List ChatStreamChunk)
    (exec : ToolCall → ToolExecutionResult) (parse : String → Option String)
    (ctx : ToolContext) (maxToolRounds : Nat) (sys u : String) :
    (execute client exec maxToolRounds sys u).2.toolRounds ≤ maxToolRounds ∧
    ∀ (fuel : Nat) (r : AgentResult) (st : AgentState),
      executeStream sclient exec parse ctx maxToolRounds sys u fuel = (some r, st) →
      r.toolRounds ≤ maxToolRounds := by
  constructor
  · have := executeAux_toolRounds_le client exec maxToolRounds (initState sys u)
    simpa [execute, initState] using this
  · intro fuel r st h
    exact streamLoopAux_toolRounds_le sclient exec parse ctx maxToolRounds fuel
      (initState sys u) st r (by simp [initState]) h

def stubTextClient : List ChatMessage → Bool → ChatResponse := fun _ _ => sanityTextResponse

def stubTextStream : List ChatMessage → Bool → List ChatStreamChunk := fun _ _ => [sanityTextChunk]

def stubExec : ToolCall → ToolExecutionResult := fun _ => .success "ok"

def stubParse : String → Option String := fun s => some s

def stubCtx : ToolContext := { sessionId := "s", timeFilter := none }

def c1Run : Option AgentResult × AgentState :=
  executeStream stubTextStream stubExec stubParse stubCtx 5 "sys" "q" 3

def c1Result : AgentResult :=
  c1Run.1.getD { content := "", toolsUsed := [], toolRounds := 0 }

/-- Witness for `toolRounds_never_exceeds_max` at a concrete run. -/
theorem toolRounds_never_exceeds_max_witness :
    (execute stubTextClient stubExec 5 "sys" "q").2.toolRounds ≤ 5 ∧ c1Result.toolRounds ≤ 5 :=
  ⟨(toolRounds_never_exceeds_max stubTextClient stubTextStream stubExec stubParse stubCtx 5 "sys" "q").1,
   (toolRounds_never_exceeds_max stubTextClient stubTextStream stubExec stubParse stubCtx 5 "sys" "q").2
     3 c1Result c1Run.2 rfl⟩

/-! ### C2: termination behaviour of the two loops -/

/-- A streamed round whose single chunk carries an *empty* tool-call list and
a terminal marker with finishReason tool_calls.  The empty array is truthy in
JavaScript, so the in-stream return is skipped; and its length is 0, so the
dispatch/increment block is skipped as well. -/
def emptyToolCallChunk : ChatStreamChunk :=
  { tool_calls := some [], isFinished := true, finishReason := some "tool_calls" }

/-- A chat-stream behaviour producing `emptyToolCallChunk` on every call. -/
def degenerateStreamClient : List ChatMessage → Bool → List ChatStreamChunk :=
  fun _ _ => [emptyToolCallChunk]

/-- C2 (the code violates the claim): with `maxToolRounds = 5` and the
degenerate stream behaviour, every while-loop iteration of
`Agent.executeStream` leaves the run state unchanged — `toolRounds` never
increments — so after 10 unfolded iterations the run has made 10 model calls
(more than maxToolRounds + 1 = 6) and still has no result; the source loop
never terminates on this behaviour, although the `maxToolRounds` field is
documented as preventing exactly this infinite loop.  (`Agent.execute` does
terminate within maxToolRounds + 1 calls for every client behaviour, see
`executeAux_chatCalls_le`.) -/
theorem executeStream_diverges_on_empty_toolcall_round :
    (executeStream degenerateStreamClient stubExec stubParse stubCtx 5 "sys" "q" 10).1
        = none ∧
    (executeStream degenerateStreamClient stubExec stubParse stubCtx 5 "sys" "q" 10).2.chatCalls.length
        = 10 :=
  ⟨rfl, rfl⟩

/-- The non-streaming loop, by contrast, makes at most `maxToolRounds + 1`
model calls for every behaviour of the chat-model client: every iteration
either returns or increments the round counter. -/
theorem executeAux_chatCalls_le (client : List ChatMessage → Bool → ChatResponse)
    (exec : ToolCall → ToolExecutionResult) :
    ∀ (fuel : Nat) (st : AgentState),
      (executeAux client exec fuel st).1.chatCalls.length ≤ st.chatCalls.length + fuel + 1 := by
  intro fuel
  induction fuel with
  | zero => intro st; simp [executeAux]
  | succ fuel ih =>
    intro st
    rw [executeAux]
    split
    · simp
    · refine le_trans (ih _) ?_
      simp [handleToolCalls_spec]
      omega

/-! ### C4 and C5: the dispatch round and the forced-finish round -/

/-- Closed form of the forced-finish tail of the streaming loop. -/
theorem forcedFinishStream_spec (sclient : List ChatMessage → Bool → List ChatStreamChunk)
    (st : AgentState) :
    forcedFinishStream sclient st =
      (some { content := (finalStreamFold (sclient (st.messages ++ [forcedUserMessage]) false) "" []).1
              toolsUsed := st.toolsUsed
              toolRounds := st.toolRounds },
       { st with
         messages := st.messages ++ [forcedUserMessage]
         snapshots := st.snapshots ++ [st.messages ++ [forcedUserMessage]]
         chatCalls := st.chatCalls ++ [false]
         events := st.events ++
           (finalStreamFold (sclient (st.messages ++ [forcedUserMessage]) false) "" []).2
         responses := st.responses ++
           [(finalStreamFold (sclient (st.messages ++ [forcedUserMessage]) false) "" []).1] }) :=
  rfl

/-- When the retained tool-call decision of a round is non-empty, one
while-loop iteration of `executeStream` emits the round's text events, then
one `tool_start` event per requested call, dispatches, emits one `tool_result`
event per call in request order, folds the batch into the history and
increments the round counter. -/
theorem streamStep_dispatch (sclient : List ChatMessage → Bool → List ChatStreamChunk)
    (exec : ToolCall → ToolExecutionResult) (parse : String → Option String)
    (ctx : ToolContext) (st : AgentState) (tcs : List ToolCall) (evs : List AgentEvent)
    (hrr : runRound (sclient st.messages true) "" none [] = RoundOutcome.fellThrough (some tcs) evs)
    (hne : tcs ≠ []) :
    streamStep sclient exec parse ctx st = .next
      { st with
        chatCalls := st.chatCalls ++ [true]
        events := st.events ++ evs ++ tcs.map (toolStartEvent parse ctx)
          ++ (tcs.zip (executeToolCalls exec tcs)).map toolResultEvent
        messages := st.messages ++ assistantToolMessage tcs ::
          (tcs.zip (executeToolCalls exec tcs)).map toolResponseMessage
        toolsUsed := st.toolsUsed ++ (tcs.zip (executeToolCalls exec tcs)).map fun p => p.1.name
        dispatchCount := st.dispatchCount + 1
        snapshots := st.snapshots ++ [st.messages ++ assistantToolMessage tcs ::
          (tcs.zip (executeToolCalls exec tcs)).map toolResponseMessage]
        toolRounds := st.toolRounds + 1 } := by
  have hl : 0 < tcs.length := List.length_pos.mpr hne
  simp only [streamStep, hrr, hl, if_true, handleToolCalls_spec]

/-- Under a client that answers every tools-advertised call with a tool-call
decision, `executeAux` runs every budgeted round as a dispatch round and then
forced-finishes: `fuel` rounds, `fuel` dispatches, `fuel` tools-advertised
model calls followed by exactly one without tools, with the forced user
message appended last and the final call's text returned. -/
theorem executeAux_under_tools (client : List ChatMessage → Bool → ChatResponse)
    (exec : ToolCall → ToolExecutionResult)
    (hc : ∀ msgs, (client msgs true).finishReason = some "tool_calls" ∧
      (client msgs true).tool_calls ≠ none) :
    ∀ (fuel : Nat) (st : AgentState),
      (executeAux client exec fuel st).2.toolRounds = st.toolRounds + fuel ∧
      (executeAux client exec fuel st).1.dispatchCount = st.dispatchCount + fuel ∧
      (executeAux client exec fuel st).1.chatCalls
          = st.chatCalls ++ List.replicate fuel true ++ [false] ∧
      (executeAux client exec fuel st).1.messages.getLast? = some forcedUserMessage ∧
      (executeAux client exec fuel st).2.content
          = (client (executeAux client exec fuel st).1.messages false).content := by
  intro fuel
  induction fuel with
  | zero =>
    intro st
    refine ⟨rfl, rfl, by simp [executeAux], ?_, rfl⟩
    simp [executeAux]
  | succ fuel ih =>
    intro st
    obtain ⟨h1, h2⟩ := hc st.messages
    rw [executeAux, if_neg (by simp [h1, h2])]
    obtain ⟨g1, g2, g3, g4, g5⟩ := ih
      { handleToolCalls exec false
          { st with chatCalls := st.chatCalls ++ [true],
                    responses := st.responses ++ [(client st.messages true).content] }
          ((client st.messages true).tool_calls.getD []) with
        toolRounds := (handleToolCalls exec false
          { st with chatCalls := st.chatCalls ++ [true],
                    responses := st.responses ++ [(client st.messages true).content] }
          ((client st.messages true).tool_calls.getD [])).toolRounds + 1 }
    refine ⟨?_, ?_, ?_, g4, g5⟩
    · rw [g1]
      simp [handleToolCalls_spec]
      omega
    · rw [g2]
      simp [handleToolCalls_spec]
      omega
    · rw [g3]
      simp [handleToolCalls_spec, List.replicate_succ, List.append_assoc]

/-- Under a stream behaviour whose every tools-advertised round falls through
with a non-empty retained tool-call decision, the streaming while-loop runs
`maxToolRounds - toolRounds` dispatch rounds and then forced-finishes, given
enough fuel. -/
theorem streamLoopAux_under_tools (sclient : List ChatMessage → Bool → List ChatStreamChunk)
    (exec : ToolCall → ToolExecutionResult) (parse : String → Option String)
    (ctx : ToolContext) (maxToolRounds : Nat)
    (hsc : ∀ msgs, ∃ tcs evs, tcs ≠ [] ∧
      runRound (sclient msgs true) "" none [] = RoundOutcome.fellThrough (some tcs) evs) :
    ∀ (fuel : Nat) (st : AgentState),
      st.toolRounds ≤ maxToolRounds → maxToolRounds ≤ st.toolRounds + fuel →
      ∃ (r : AgentResult) (st2 : AgentState),
        streamLoopAux sclient exec parse ctx maxToolRounds fuel st = (some r, st2) ∧
        r.toolRounds = maxToolRounds ∧
        st2.dispatchCount = st.dispatchCount + (maxToolRounds - st.toolRounds) ∧
        st2.chatCalls = st.chatCalls
          ++ List.replicate (maxToolRounds - st.toolRounds) true ++ [false] ∧
        st2.messages.getLast? = some forcedUserMessage ∧
        r.content = (finalStreamFold (sclient st2.messages false) "" []).1 := by
  intro fuel
  induction fuel with
  | zero =>
    intro st hle hge
    have heq : st.toolRounds = maxToolRounds := by omega
    rw [streamLoopAux, if_neg (by omega), forcedFinishStream_spec]
    refine ⟨_, _, rfl, heq ▸ rfl, by simp [heq], by simp [heq], ?_, rfl⟩
    simp
  | succ fuel ih =>
    intro st hle hge
    by_cases hlt : st.toolRounds < maxToolRounds
    · obtain ⟨tcs, evs, hne, hrr⟩ := hsc st.messages
      rw [streamLoopAux, if_pos hlt, streamStep_dispatch sclient exec parse ctx st tcs evs hrr hne]
      obtain ⟨r, st2, g0, g1, g2, g3, g4, g5⟩ := ih
        { st with
          chatCalls := st.chatCalls ++ [true]
          events := st.events ++ evs ++ tcs.map (toolStartEvent parse ctx)
            ++ (tcs.zip (executeToolCalls exec tcs)).map toolResultEvent
          messages := st.messages ++ assistantToolMessage tcs ::
            (tcs.zip (executeToolCalls exec tcs)).map toolResponseMessage
          toolsUsed := st.toolsUsed ++ (tcs.zip (executeToolCalls exec tcs)).map fun p => p.1.name
          dispatchCount := st.dispatchCount + 1
          snapshots := st.snapshots ++ [st.messages ++ assistantToolMessage tcs ::
            (tcs.zip (executeToolCalls exec tcs)).map toolResponseMessage]
          toolRounds := st.toolRounds + 1 }
        (by simpa using hlt) (by simp; omega)
      refine ⟨r, st2, g0, g1, ?_, ?_, g4, g5⟩
      · rw [g2]
        simp
        omega
      · rw [g3]
        have hk : maxToolRounds - st.toolRounds = (maxToolRounds - (st.toolRounds + 1)) + 1 := by
          omega
        simp only [hk, List.replicate_succ, List.append_assoc]
        simp
    · have heq : st.toolRounds = maxToolRounds := by omega
      rw [streamLoopAux, if_neg (by omega), forcedFinishStream_spec]
      refine ⟨_, _, rfl, heq ▸ rfl, by simp [heq], by simp [heq], ?_, rfl⟩
      simp

/-- C4: if the model responds with a tool-call decision in every
tools-advertised round, a run with `maxToolRounds = 2` performs exactly 2
dispatch rounds, then appends exactly one additional user-role message (the
forced-finish instruction, which ends the history) and issues exactly one
additional model call without advertising tools, returning that final call's
text, which is non-empty whenever the model's tool-free answers are. -/
theorem forced_finish_after_budget
    (client : List ChatMessage → Bool → ChatResponse)
    (sclient : List ChatMessage → Bool → List ChatStreamChunk)
    (exec : ToolCall → ToolExecutionResult) (parse : String → Option String)
    (ctx : ToolContext) (sys u : String)
    (hc : ∀ msgs, (client msgs true).finishReason = some "tool_calls" ∧
      (client msgs true).tool_calls ≠ none)
    (hfin : ∀ msgs, (client msgs false).content ≠ "")
    (hsc : ∀ msgs, ∃ tcs evs, tcs ≠ [] ∧
      runRound (sclient msgs true) "" none [] = RoundOutcome.fellThrough (some tcs) evs)
    (hsfin : ∀ msgs, (finalStreamFold (sclient msgs false) "" []).1 ≠ "") :
    ((execute client exec 2 sys u).2.toolRounds = 2 ∧
     (execute client exec 2 sys u).1.dispatchCount = 2 ∧
     (execute client exec 2 sys u).1.chatCalls = [true, true, false] ∧
     (execute client exec 2 sys u).1.messages.getLast? = some forcedUserMessage ∧
     (execute client exec 2 sys u).2.content
        = (client (execute client exec 2 sys u).1.messages false).content ∧
     (execute client exec 2 sys u).2.content ≠ "") ∧
    ∀ fuel : Nat, 2 ≤ fuel →
      ∃ (r : AgentResult) (st2 : AgentState),
        executeStream sclient exec parse ctx 2 sys u fuel = (some r, st2) ∧
        r.toolRounds = 2 ∧ st2.dispatchCount = 2 ∧
        st2.chatCalls = [true, true, false] ∧
        st2.messages.getLast? = some forcedUserMessage ∧
        r.content = (finalStreamFold (sclient st2.messages false) "" []).1 ∧
        r.content ≠ "" := by
  constructor
  · obtain ⟨g1, g2, g3, g4, g5⟩ := executeAux_under_tools client exec hc 2 (initState sys u)
    have hne : (executeAux client exec 2 (initState sys u)).2.content ≠ "" := by
      rw [g5]
      exact hfin _
    refine ⟨?_, ?_, ?_, g4, g5, hne⟩
    · simpa [initState] using g1
    · simpa [initState] using g2
    · simpa [initState, List.replicate_succ] using g3
  · intro fuel hf
    obtain ⟨r, st2, g0, g1, g2, g3, g4, g5⟩ :=
      streamLoopAux_under_tools sclient exec parse ctx 2 hsc fuel (initState sys u)
        (by simp [initState]) (by simpa [initState] using hf)
    have hne : r.content ≠ "" := by
      rw [g5]
      exact hsfin _
    refine ⟨r, st2, g0, g1, ?_, ?_, g4, g5, hne⟩
    · simpa [initState] using g2
    · simpa [initState, List.replicate_succ] using g3

/-- The tool call requested by the always-tools stubs. -/
def toolCallStub : ToolCall := { id := "1", name := "get_member_stats", arguments := "" }

/-- A non-streaming client that requests a tool whenever tools are advertised
and otherwise answers with text. -/
def alwaysToolClient : List ChatMessage → Bool → ChatResponse :=
  fun _ adv => if adv then
    { content := "", finishReason := some "tool_calls", tool_calls := some [toolCallStub] }
  else sanityTextResponse

/-- A terminal chunk carrying one tool call. -/
def toolCallChunkStub : ChatStreamChunk :=
  { tool_calls := some [toolCallStub], isFinished := true, finishReason := some "tool_calls" }

/-- A streaming client that requests a tool whenever tools are advertised and
otherwise streams text. -/
def alwaysToolStream : List ChatMessage → Bool → List ChatStreamChunk :=
  fun _ adv => if adv then [toolCallChunkStub] else [sanityTextChunk]

/-- Witness for `forced_finish_after_budget` at the always-tools stubs. -/
theorem forced_finish_after_budget_witness :
    (execute alwaysToolClient stubExec 2 "sys" "q").2.toolRounds = 2 ∧
    ∃ (r : AgentResult) (st2 : AgentState),
      executeStream alwaysToolStream stubExec stubParse stubCtx 2 "sys" "q" 3 = (some r, st2) ∧
      r.toolRounds = 2 ∧ st2.dispatchCount = 2 ∧
      st2.chatCalls = [true, true, false] ∧
      st2.messages.getLast? = some forcedUserMessage ∧
      r.content = (finalStreamFold (alwaysToolStream st2.messages false) "" []).1 ∧
      r.content ≠ "" :=
  ⟨(forced_finish_after_budget alwaysToolClient alwaysToolStream stubExec stubParse stubCtx
      "sys" "q" (fun _ => ⟨rfl, fun h => Option.noConfusion h⟩)
      (fun _ => by simp [alwaysToolClient, sanityTextResponse])
      (fun _ => ⟨[toolCallStub], [], by decide, rfl⟩)
      (fun _ => by simp [alwaysToolStream, sanityTextChunk, finalStreamFold])).1.1,
   (forced_finish_after_budget alwaysToolClient alwaysToolStream stubExec stubParse stubCtx
      "sys" "q" (fun _ => ⟨rfl, fun h => Option.noConfusion h⟩)
      (fun _ => by simp [alwaysToolClient, sanityTextResponse])
      (fun _ => ⟨[toolCallStub], [], by decide, rfl⟩)
      (fun _ => by simp [alwaysToolStream, sanityTextChunk, finalStreamFold])).2 3 (by decide)⟩

/-- C5: when the retained tool-call decision of a streamed round is non-empty
once the model stream ends, the while-loop iteration emits exactly one
`tool_start` event per requested call — carrying the tool name and the parsed
arguments merged with the ambient time filter (`toolStartEvent`) — all before
any dispatch output, and afterwards exactly one `tool_result` event per call
(success payload or error text) in the same order as the requests; the same
per-request order is folded into the message history. -/
theorem stream_tool_event_protocol (sclient : List ChatMessage → Bool → List ChatStreamChunk)
    (exec : ToolCall → ToolExecutionResult) (parse : String → Option String)
    (ctx : ToolContext) (st : AgentState) (tcs : List ToolCall) (evs : List AgentEvent)
    (hrr : runRound (sclient st.messages true) "" none [] = RoundOutcome.fellThrough (some tcs) evs)
    (hne : tcs ≠ []) :
    ∃ st1, streamStep sclient exec parse ctx st = .next st1 ∧
      st1.events = st.events ++ evs ++ tcs.map (toolStartEvent parse ctx)
        ++ tcs.map (fun tc => toolResultEvent (tc, exec tc)) ∧
      st1.messages = st.messages ++ assistantToolMessage tcs ::
        tcs.map (fun tc => toolResponseMessage (tc, exec tc)) ∧
      st1.toolRounds = st.toolRounds + 1 := by
  refine ⟨_, streamStep_dispatch sclient exec parse ctx st tcs evs hrr hne, ?_, ?_, rfl⟩
  · simp [zip_executeToolCalls]
  · simp [zip_executeToolCalls]

/-! ### C7: tool failures are absorbed, the run still answers -/

/-- The run's final content is always the text of the last model response:
every exit path of the loop returns the content of the model call it just
made. -/
theorem executeAux_responses (client : List ChatMessage → Bool → ChatResponse)
    (exec : ToolCall → ToolExecutionResult) :
    ∀ (fuel : Nat) (st : AgentState),
      (executeAux client exec fuel st).1.responses.getLast?
        = some (executeAux client exec fuel st).2.content := by
  intro fuel
  induction fuel with
  | zero => intro st; simp [executeAux]
  | succ fuel ih =>
    intro st
    rw [executeAux]
    split
    · simp
    · exact ih _

/-- C7: a failed `ToolExecutionResult` is folded back as a tool-role message
whose content is the human-readable string 错误: error, keyed by the
originating call id; every dispatched call — failed or not — produces exactly
one such message after the assistant request message, and the run always ends
by returning the text of its last model response (tool failures never become
run failures: the dispatch outcome `exec` is arbitrary here, including
always-failing). -/
theorem tool_failures_absorbed (client : List ChatMessage → Bool → ChatResponse)
    (exec : ToolCall → ToolExecutionResult) (w : Bool) (st : AgentState)
    (tcs : List ToolCall) (maxToolRounds : Nat) (sys u : String) :
    (∀ (tc : ToolCall) (e : String),
      toolResponseMessage (tc, ToolExecutionResult.failure e)
        = { role := Role.tool, content := "错误: " ++ e, tool_call_id := some tc.id }) ∧
    (handleToolCalls exec w st tcs).messages
        = st.messages ++ assistantToolMessage tcs ::
            tcs.map (fun tc => toolResponseMessage (tc, exec tc)) ∧
    (execute client exec maxToolRounds sys u).1.responses.getLast?
        = some (execute client exec maxToolRounds sys u).2.content := by
  refine ⟨fun tc e => rfl, ?_, executeAux_responses client exec maxToolRounds (initState sys u)⟩
  rw [handleToolCalls_spec]
  simp [zip_executeToolCalls]

/-! ### C6: the history is append-only and tool messages are linked -/

/-- The ids a tool-role message may reference at a given point of the history:
set by an assistant message to the ids of its carried requests, kept across
tool messages, cleared by any other role. -/
def linkState (cur : Option (List String)) (m : ChatMessage) : Option (List String) :=
  match m.role with
  | .assistant => m.tool_calls.map fun l => l.map ToolCall.id
  | .tool => cur
  | _ => none

/-- Whether one message is locally well-linked: a tool-role message must carry
a `tool_call_id` member of the ids of the immediately preceding assistant
message's requests; other roles are unconstrained. -/
def linkOkAt (cur : Option (List String)) (m : ChatMessage) : Bool :=
  match m.role with
  | .tool =>
    match m.tool_call_id, cur with
    | some i, some ids => decide (i ∈ ids)
    | _, _ => false
  | _ => true

/-- Scan of the linking discipline along a history. -/
def scanToolLinks : Option (List String) → List ChatMessage → Bool
  | _, [] => true
  | cur, m :: rest => linkOkAt cur m && scanToolLinks (linkState cur m) rest

/-- Every tool-role message's `tool_call_id` equals the id of an entry in the
`tool_calls` list of the immediately preceding assistant message. -/
def toolLinksOk (msgs : List ChatMessage) : Bool := scanToolLinks none msgs

/-- Every assistant message of the history carries tool requests and has empty
text content. -/
def assistantsCarryRequests (msgs : List ChatMessage) : Bool :=
  msgs.all fun m =>
    if m.role = Role.assistant then decide (m.content = "") && m.tool_calls.isSome else true

/-- The seeded history: system prompt then user question. -/
def initMessages (sys u : String) : List ChatMessage :=
  [{ role := .system, content := sys }, { role := .user, content := u }]

/-- The history invariant of a run seeded with `seed`: the snapshot trace
starts at the seed and forms a prefix chain (the history is strictly
append-only, its last snapshot being the current history), every tool-role
message is keyed to the immediately preceding assistant message's requests,
and every assistant message carries its requests with empty text content. -/
def HistoryInv (seed : List ChatMessage) (st : AgentState) : Prop :=
  st.snapshots.head? = some seed ∧
  List.Chain' (· <+: ·) st.snapshots ∧
  st.snapshots.getLast? = some st.messages ∧
  toolLinksOk st.messages = true ∧
  assistantsCarryRequests st.messages = true

theorem scanToolLinks_append (xs ys : List ChatMessage) :
    ∀ cur, scanToolLinks cur (xs ++ ys)
      = (scanToolLinks cur xs && scanToolLinks (xs.foldl linkState cur) ys) := by
  induction xs with
  | nil => intro cur; simp [scanToolLinks]
  | cons m xs ih =>
    intro cur
    simp [scanToolLinks, ih, Bool.and_assoc]

theorem scan_toolResponseMessages (ids : List String) :
    ∀ (l : List (ToolCall × ToolExecutionResult)),
      (∀ p ∈ l, p.1.id ∈ ids) →
      scanToolLinks (some ids) (l.map toolResponseMessage) = true := by
  intro l
  induction l with
  | nil => intro _; rfl
  | cons p l ih =>
    intro hmem
    simp only [List.map_cons, scanToolLinks, Bool.and_eq_true]
    refine ⟨?_, ?_⟩
    · simp only [linkOkAt, toolResponseMessage, decide_eq_true_eq]
      exact hmem p (List.mem_cons_self p l)
    · have hst : linkState (some ids) (toolResponseMessage p) = some ids := rfl
      rw [hst]
      exact ih fun q hq => hmem q (List.mem_cons_of_mem p hq)

theorem scan_dispatchBatch (cur : Option (List String)) (tcs : List ToolCall)
    (results : List ToolExecutionResult) :
    scanToolLinks cur
      (assistantToolMessage tcs :: (tcs.zip results).map toolResponseMessage) = true := by
  simp only [scanToolLinks, Bool.and_eq_true]
  refine ⟨rfl, ?_⟩
  have hst : linkState cur (assistantToolMessage tcs) = some (tcs.map ToolCall.id) := rfl
  rw [hst]
  refine scan_toolResponseMessages _ _ ?_
  intro p hp
  exact List.mem_map_of_mem ToolCall.id (List.of_mem_zip hp).1

theorem assistants_dispatchBatch (tcs : List ToolCall) (results : List ToolExecutionResult) :
    assistantsCarryRequests
      (assistantToolMessage tcs :: (tcs.zip results).map toolResponseMessage) = true := by
  simp only [assistantsCarryRequests, List.all_cons, Bool.and_eq_true]
  refine ⟨rfl, ?_⟩
  rw [List.all_eq_true]
  intro x hx
  rw [List.mem_map] at hx
  obtain ⟨p, _, rfl⟩ := hx
  rfl

theorem head?_append_singleton {α : Type} (l : List α) (a b : α)
    (h : l.head? = some b) : (l ++ [a]).head? = some b := by
  cases l with
  | nil => simp at h
  | cons x xs => simpa using h

/-- Appending a well-formed batch to the history (with its snapshot) preserves
the invariant. -/
theorem historyInv_pushBatch (seed : List ChatMessage) (st : AgentState)
    (batch : List ChatMessage) (h : HistoryInv seed st)
    (hb : ∀ cur, scanToolLinks cur batch = true)
    (ha : assistantsCarryRequests batch = true) :
    HistoryInv seed { st with messages := st.messages ++ batch,
                              snapshots := st.snapshots ++ [st.messages ++ batch] } := by
  obtain ⟨h0, h1, h2, h3, h4⟩ := h
  refine ⟨head?_append_singleton _ _ _ h0, ?_, ?_, ?_, ?_⟩
  · rw [List.chain'_append]
    refine ⟨h1, List.chain'_singleton _, ?_⟩
    intro x hx y hy
    rw [h2] at hx
    simp only [Option.mem_def, Option.some.injEq, List.head?_cons] at hx hy
    subst hx
    subst hy
    exact List.prefix_append _ _
  · simp
  · show toolLinksOk (st.messages ++ batch) = true
    rw [toolLinksOk] at h3 ⊢
    rw [scanToolLinks_append, Bool.and_eq_true]
    exact ⟨h3, hb _⟩
  · show assistantsCarryRequests (st.messages ++ batch) = true
    rw [assistantsCarryRequests] at h4 ⊢
    rw [List.all_append, Bool.and_eq_true]
    exact ⟨h4, ha⟩

theorem historyInv_handleToolCalls (seed : List ChatMessage)
    (exec : ToolCall → ToolExecutionResult) (w : Bool) (st : AgentState)
    (tcs : List ToolCall) (h : HistoryInv seed st) :
    HistoryInv seed (handleToolCalls exec w st tcs) := by
  rw [handleToolCalls_spec]
  exact historyInv_pushBatch seed st
    (assistantToolMessage tcs :: (tcs.zip (executeToolCalls exec tcs)).map toolResponseMessage)
    h (fun cur => scan_dispatchBatch cur tcs _) (assistants_dispatchBatch tcs _)

theorem historyInv_forcedPush (seed : List ChatMessage) (st : AgentState)
    (h : HistoryInv seed st) :
    HistoryInv seed { st with messages := st.messages ++ [forcedUserMessage],
                              snapshots := st.snapshots ++ [st.messages ++ [forcedUserMessage]] } :=
  historyInv_pushBatch seed st [forcedUserMessage] h (fun _ => rfl) rfl

theorem executeAux_historyInv (client : List ChatMessage → Bool → ChatResponse)
    (exec : ToolCall → ToolExecutionResult) (seed : List ChatMessage) :
    ∀ (fuel : Nat) (st : AgentState), HistoryInv seed st →
      HistoryInv seed (executeAux client exec fuel st).1 := by
  intro fuel
  induction fuel with
  | zero =>
    intro st h
    exact historyInv_forcedPush seed st h
  | succ fuel ih =>
    intro st h
    rw [executeAux]
    split
    · exact h
    · exact ih _ (historyInv_handleToolCalls seed exec false _ _ h)

theorem streamStep_historyInv (sclient : List ChatMessage → Bool → List ChatStreamChunk)
    (exec : ToolCall → ToolExecutionResult) (parse : String → Option String)
    (ctx : ToolContext) (seed : List ChatMessage) (st : AgentState)
    (h : HistoryInv seed st) :
    (∀ st1 r, streamStep sclient exec parse ctx st = .finished st1 r → HistoryInv seed st1) ∧
    (∀ st1, streamStep sclient exec parse ctx st = .next st1 → HistoryInv seed st1) := by
  constructor
  · intro st1 r hf
    cases hr : runRound (sclient st.messages true) "" none [] with
    | returned fc evs =>
      simp only [streamStep, hr, StreamStepOutcome.finished.injEq] at hf
      obtain ⟨h1, _⟩ := hf
      subst h1
      exact h
    | fellThrough retained evs =>
      cases retained with
      | some tcs =>
        by_cases hl : 0 < tcs.length <;> simp [streamStep, hr, hl] at hf
      | none => simp [streamStep, hr] at hf
  · intro st1 hn
    cases hr : runRound (sclient st.messages true) "" none [] with
    | returned fc evs => simp [streamStep, hr] at hn
    | fellThrough retained evs =>
      cases retained with
      | some tcs =>
        by_cases hl : 0 < tcs.length
        · simp only [streamStep, hr, hl, if_true, StreamStepOutcome.next.injEq] at hn
          subst hn
          exact historyInv_handleToolCalls seed exec true _ tcs h
        · simp only [streamStep, hr, hl, if_false, StreamStepOutcome.next.injEq] at hn
          subst hn
          exact h
      | none =>
        simp only [streamStep, hr, StreamStepOutcome.next.injEq] at hn
        subst hn
        exact h

theorem streamLoopAux_historyInv (sclient : List ChatMessage → Bool → List ChatStreamChunk)
    (exec : ToolCall → ToolExecutionResult) (parse : String → Option String)
    (ctx : ToolContext) (maxToolRounds : Nat) (seed : List ChatMessage) :
    ∀ (fuel : Nat) (st : AgentState), HistoryInv seed st →
      HistoryInv seed (streamLoopAux sclient exec parse ctx maxToolRounds fuel st).2 := by
  intro fuel
  induction fuel with
  | zero =>
    intro st h
    rw [streamLoopAux]
    split
    · exact h
    · rw [forcedFinishStream_spec]
      exact historyInv_forcedPush seed st h
  | succ fuel ih =>
    intro st h
    rw [streamLoopAux]
    split
    · cases hs : streamStep sclient exec parse ctx st with
      | finished st1 r =>
        exact (streamStep_historyInv sclient exec parse ctx seed st h).1 st1 r hs
      | next st1 =>
        exact ih st1 ((streamStep_historyInv sclient exec parse ctx seed st h).2 st1 hs)
    · rw [forcedFinishStream_spec]
      exact historyInv_forcedPush seed st h

theorem historyInv_initState (sys u : String) :
    HistoryInv (initMessages sys u) (initState sys u) := by
  refine ⟨rfl, List.chain'_singleton _, rfl, rfl, rfl⟩

/-- C6: throughout every run, the conversation history is strictly append-only
after being seeded with the system prompt and the user question (the snapshot
trace is a prefix chain starting at the seed and ending at the final history),
every tool-role message's `tool_call_id` equals the id of an entry in the
`tool_calls` list of the immediately preceding assistant message, and every
assistant message carries its requests with empty text content. -/
theorem history_append_only_and_linked (client : List ChatMessage → Bool → ChatResponse)
    (sclient : List ChatMessage → Bool → List ChatStreamChunk)
    (exec : ToolCall → ToolExecutionResult) (parse : String → Option String)
    (ctx : ToolContext) (maxToolRounds : Nat) (sys u : String) :
    HistoryInv (initMessages sys u) (execute client exec maxToolRounds sys u).1 ∧
    ∀ fuel : Nat,
      HistoryInv (initMessages sys u)
        (executeStream sclient exec parse ctx maxToolRounds sys u fuel).2 :=
  ⟨executeAux_historyInv client exec (initMessages sys u) maxToolRounds (initState sys u)
      (historyInv_initState sys u),
   fun fuel =>
    streamLoopAux_historyInv sclient exec parse ctx maxToolRounds (initMessages sys u)
      fuel (initState sys u) (historyInv_initState sys u)⟩

/-- Witness for `stream_tool_event_protocol` at a concrete round. -/
theorem stream_tool_event_protocol_witness :
    ∃ st1, streamStep alwaysToolStream stubExec stubParse stubCtx (initState "sys" "q")
        = .next st1 ∧
      st1.events = (initState "sys" "q").events ++ []
        ++ [toolCallStub].map (toolStartEvent stubParse stubCtx)
        ++ [toolCallStub].map (fun tc => toolResultEvent (tc, stubExec tc)) ∧
      st1.messages = (initState "sys" "q").messages ++ assistantToolMessage [toolCallStub] ::
        [toolCallStub].map (fun tc => toolResponseMessage (tc, stubExec tc)) ∧
      st1.toolRounds = (initState "sys" "q").toolRounds + 1 :=
  stream_tool_event_protocol alwaysToolStream stubExec stubParse stubCtx
    (initState "sys" "q") [toolCallStub] [] rfl (by decide)

end ChatLab
